import Mathlib

/-!
Verification of the degrees-of-separation graph-search program
(`degrees.py`) against its specification.

The Python program keeps three global dictionaries (`names`, `people`,
`movies`), loads them from CSV rows, and runs a frontier-driven search
(`shortest_path`) over the implicit people-movies co-star graph.  We embed
the program shallowly:

* Python dictionaries become association lists (`alookup` / `ainsert`,
  where `ainsert` overwrites in place like dict assignment);
* Python sets become duplicate-free lists built with `insertIfAbsent`
  (set membership is what the program observes; we fix insertion order as
  the iteration order, a legitimate choice since Python set iteration
  order is unspecified);
* the `while True` loop of `shortest_path` becomes a step function
  `stepOnce` iterated by fuel (`searchLoop`); `configAfter` exposes the
  loop state after `k` iterations so that run-long invariants can be
  stated;
* `raise Exception("No solution")` and `KeyError` become explicit
  constructors of `SearchOutcome`.

The helper module `util.py` (the `Node`, `StackFrontier` and
`QueueFrontier` classes) is not part of the sources; those definitions
are modelled from the specification, as marked on their doc comments.
-/

/-- Insert into a Python-set modelled as a duplicate-free list: add `x`
at the end unless it is already present. -/
def insertIfAbsent {α : Type} [DecidableEq α] (x : α) (l : List α) : List α :=
  if x ∈ l then l else l ++ [x]

/-- Dictionary lookup on an association list (Python `d[k]` / `d.get(k)`). -/
def alookup {α : Type} (l : List (String × α)) (k : String) : Option α :=
  match l with
  | [] => none
  | (k', v) :: rest => if k' = k then some v else alookup rest k

/-- Dictionary assignment `d[k] = v`: overwrite the entry in place if the
key is present, otherwise append it. -/
def ainsert {α : Type} (l : List (String × α)) (k : String) (v : α) :
    List (String × α) :=
  match l with
  | [] => [(k, v)]
  | (k', v') :: rest =>
      if k' = k then (k, v) :: rest else (k', v') :: ainsert rest k v

/-- Python's `str.lower()` as used by `degrees.py` (lines 32-35, 184):
lowercase each character.  (We map over the character list rather than
using `String.toLower`, whose byte-position recursion does not reduce
inside the kernel; the two agree on every string.) -/
def lowerName (s : String) : String := String.mk (s.data.map Char.toLower)

/-- A `people` table entry: name, birth, and the set of movie ids the
person acted in (`degrees.py` lines 10-11, 27-31). -/
structure Person where
  name : String
  birth : String
  movies : List String
deriving DecidableEq

/-- A `movies` table entry: title, year, and the set of person ids who
starred (`degrees.py` lines 13-14, 41-45). -/
structure Movie where
  title : String
  year : String
  stars : List String
deriving DecidableEq

/-- The three global tables of `degrees.py`: `names` (lower-cased name to
set of person ids), `people`, and `movies`. -/
structure Dataset where
  names : List (String × List String)
  people : List (String × Person)
  movies : List (String × Movie)
deriving DecidableEq

/-- Processing one row of `people.csv` (`load_data`, lines 26-35):
install the person record with an empty movie set, and index the
lower-cased name. -/
def loadPerson (ds : Dataset) (id name birth : String) : Dataset :=
  let pds := Dataset.mk ds.names (ainsert ds.people id (Person.mk name birth [])) ds.movies
  match alookup pds.names (lowerName name) with
  | none => Dataset.mk (ainsert pds.names (lowerName name) [id]) pds.people pds.movies
  | some ids =>
      Dataset.mk (ainsert pds.names (lowerName name) (insertIfAbsent id ids)) pds.people pds.movies

/-- Processing one row of `movies.csv` (`load_data`, lines 40-45):
install the movie record with an empty star set. -/
def loadMovie (ds : Dataset) (id title year : String) : Dataset :=
  Dataset.mk ds.names ds.people (ainsert ds.movies id (Movie.mk title year []))

/-- Processing one row of `stars.csv` (`load_data`, lines 50-55).  The
Python body is a `try` block: `people[pid]["movies"].add(mid)` runs
first, then `movies[mid]["stars"].add(pid)`; a `KeyError` is swallowed.
So a missing person id skips the whole record, while a missing movie id
skips only the star-set update, after the person's movie set has already
been extended. -/
def loadStar (ds : Dataset) (pid mid : String) : Dataset :=
  match alookup ds.people pid with
  | none => ds
  | some person =>
      let ds1 := Dataset.mk ds.names
        (ainsert ds.people pid
          (Person.mk person.name person.birth (insertIfAbsent mid person.movies)))
        ds.movies
      match alookup ds1.movies mid with
      | none => ds1
      | some movie =>
          Dataset.mk ds1.names ds1.people
            (ainsert ds1.movies mid
              (Movie.mk movie.title movie.year (insertIfAbsent pid movie.stars)))

/-- The whole of `load_data` (lines 19-55): fold the people rows, then
the movie rows, then the star rows.  A people row is `(id, name, birth)`,
a movie row `(id, title, year)`, a star row `(person_id, movie_id)`. -/
def load_data (peopleRows : List (String × String × String))
    (movieRows : List (String × String × String))
    (starRows : List (String × String)) : Dataset :=
  let ds0 := Dataset.mk [] [] []
  let ds1 := peopleRows.foldl (fun ds r => loadPerson ds r.1 r.2.1 r.2.2) ds0
  let ds2 := movieRows.foldl (fun ds r => loadMovie ds r.1 r.2.1 r.2.2) ds1
  starRows.foldl (fun ds r => loadStar ds r.1 r.2) ds2

/-- Modelled from the spec: the `Node` class of the missing `util.py`
(spec section 3) — an immutable record of state (a person id), an
optional parent reference, and the connecting movie id.  The two
construction sites of `degrees.py` are `Node(source, parent=None,
action=None)` (the root, line 103) and `Node(personId, node, movieId)`
(a child, line 143), so we embed the class as an inductive with exactly
these two shapes. -/
inductive Node where
  | root (state : String)
  | child (state : String) (action : String) (parent : Node)
deriving DecidableEq

/-- The `state` field of a node. -/
def Node.state : Node → String
  | .root s => s
  | .child s _ _ => s

/-- Distance of a node from the root of the parent-chain tree. -/
def Node.depth : Node → Nat
  | .root _ => 0
  | .child _ _ p => p.depth + 1

/-- Modelled from the spec: the two removal policies of the missing
`util.py` frontier classes (spec section 4.1): `StackFrontier`
(last-in-first-out) and `QueueFrontier` (first-in-first-out). -/
inductive Policy where
  | stack
  | queue
deriving DecidableEq

/-- Modelled from the spec: a frontier is an explicit-order collection of
pending nodes (spec section 4.1); we keep them in insertion order,
oldest first, together with the removal policy. -/
structure Frontier where
  policy : Policy
  nodes : List Node
deriving DecidableEq

/-- Modelled from the spec: `add(node)` inserts with no uniqueness
check. -/
def Frontier.add (f : Frontier) (n : Node) : Frontier :=
  Frontier.mk f.policy (f.nodes ++ [n])

/-- Modelled from the spec: `empty()` is true iff no nodes remain. -/
def Frontier.empty (f : Frontier) : Bool :=
  f.nodes.isEmpty

/-- Modelled from the spec: `contains_state(state)` is true iff some
node currently in the frontier has that state. -/
def Frontier.contains_state (f : Frontier) (s : String) : Bool :=
  f.nodes.any (fun n => n.state == s)

/-- Modelled from the spec: `remove()` takes the most recently added
node under the stack policy and the earliest added node under the queue
policy; `none` models the "empty frontier" condition. -/
def Frontier.remove (f : Frontier) : Option (Node × Frontier) :=
  match f.nodes with
  | [] => none
  | n :: rest =>
      match f.policy with
      | Policy.queue => some (n, Frontier.mk f.policy rest)
      | Policy.stack =>
          some ((n :: rest).getLast (List.cons_ne_nil n rest),
            Frontier.mk f.policy ((n :: rest).dropLast))

/-- Result of one call to `shortest_path`.  `found` carries the
`(movies, people)` pair of lists that `checkForTargetPerson` builds
(line 169); `noSolutionError` is `raise Exception("No solution")`
(line 115); `keyError` is the `KeyError` a dangling id raises inside
`neighbors_for_person`; `outOfFuel` is the artifact of bounding the
`while True` loop by fuel. -/
inductive SearchOutcome where
  | found (solution : List String × List String)
  | noSolutionError
  | keyError
  | outOfFuel
deriving DecidableEq

/-- Path reconstruction of `checkForTargetPerson` (lines 157-169): walk
`parent` references from the given node to the root, collecting `action`
into `movies` and `state` into `people`, then reverse both lists.  The
root contributes nothing.  (Walking then reversing equals recursing
towards the root and appending on the way back.) -/
def Node.solutionPath : Node → List String × List String
  | .root _ => ([], [])
  | .child s a p =>
      let rec_ := p.solutionPath
      (rec_.1 ++ [a], rec_.2 ++ [s])

/-- The function `checkForTargetPerson(currentPersonId, targetId, node)`
(lines 148-174): if the candidate person is the target, reconstruct the
path from `node` — the node currently being expanded, i.e. the parent of
the discovered target — and return it; otherwise return `None`. -/
def checkForTargetPerson (currentPersonId targetId : String) (node : Node) :
    Option (List String × List String) :=
  if currentPersonId = targetId then some node.solutionPath else none

/-- The movie loop inside `neighbors_for_person` (lines 212-214): for
each movie id, look the movie up (`KeyError`, i.e. `none`, if absent) and
add `(movie_id, star)` to the neighbor set for each of its stars. -/
def collectNeighbors (ds : Dataset) :
    List String → List (String × String) → Option (List (String × String))
  | [], acc => some acc
  | movie_id :: rest, acc =>
      match alookup ds.movies movie_id with
      | none => none
      | some movie =>
          collectNeighbors ds rest
            (movie.stars.foldl (fun a pid => insertIfAbsent (movie_id, pid) a) acc)

/-- The function `neighbors_for_person(person_id)` (lines 205-215):
`(movie_id, person_id)` pairs for people who starred with the given
person; `none` models the `KeyError` raised when the person id, or any
movie id in their movie set, is absent from its table. -/
def neighbors_for_person (ds : Dataset) (person_id : String) :
    Option (List (String × String)) :=
  match alookup ds.people person_id with
  | none => none
  | some person => collectNeighbors ds person.movies []

/-- The `for co_actor in moviesActorStarredIn` loop of `shortest_path`
(lines 129-145): for each `(movieId, personId)` pair, if the person is
neither pending in the frontier nor explored, run the early goal check —
returning the solution if it fires — and otherwise add the child node to
the frontier.  Returns either the solution (`Sum.inl`) or the frontier
as it stands after the loop (`Sum.inr`). -/
def exploreNeighbors (target : String) (node : Node) :
    List (String × String) → Frontier → List String →
    Sum (List String × List String) Frontier
  | [], frontier, _ => Sum.inr frontier
  | (movieId, personId) :: rest, frontier, explored =>
      if frontier.contains_state personId = false ∧ personId ∉ explored then
        match checkForTargetPerson personId target node with
        | some solution => Sum.inl solution
        | none =>
            exploreNeighbors target node rest
              (frontier.add (Node.child personId movieId node)) explored
      else
        exploreNeighbors target node rest frontier explored

/-- The loop state of `shortest_path`: the frontier and the
`exploredPeople` set. -/
structure Config where
  frontier : Frontier
  explored : List String
deriving DecidableEq

/-- Result of one iteration of the `while True` loop: either the call
returns (`done`) or the loop continues with a new state (`next`). -/
inductive StepResult where
  | done (outcome : SearchOutcome)
  | next (c : Config)
deriving DecidableEq

/-- Whether a step result is an immediate successful return. -/
def StepResult.isFound : StepResult → Bool
  | .done (.found _) => true
  | _ => false

/-- One iteration of the `while True` loop of `shortest_path` (lines
111-145): if the frontier is empty, raise "No solution"; otherwise
remove a node per the policy, mark its state explored, compute its
neighbors (propagating a `KeyError`), and run the neighbor loop. -/
def stepOnce (ds : Dataset) (target : String) (c : Config) : StepResult :=
  match c.frontier.remove with
  | none => StepResult.done SearchOutcome.noSolutionError
  | some (node, frontier') =>
      let explored' := insertIfAbsent node.state c.explored
      match neighbors_for_person ds node.state with
      | none => StepResult.done SearchOutcome.keyError
      | some neighbors =>
          match exploreNeighbors target node neighbors frontier' explored' with
          | Sum.inl solution => StepResult.done (SearchOutcome.found solution)
          | Sum.inr frontier'' => StepResult.next (Config.mk frontier'' explored')

/-- The `while True` loop, iterated under a fuel bound. -/
def searchLoop (ds : Dataset) (target : String) : Nat → Config → SearchOutcome
  | 0, _ => SearchOutcome.outOfFuel
  | fuel + 1, c =>
      match stepOnce ds target c with
      | StepResult.done outcome => outcome
      | StepResult.next c' => searchLoop ds target fuel c'

/-- The state just before the loop starts (lines 101-108): a frontier
holding the single root node, and an empty explored set. -/
def initialConfig (policy : Policy) (source : String) : Config :=
  Config.mk ((Frontier.mk policy []).add (Node.root source)) []

/-- The search engine parameterized by the removal policy (spec section
4.1 requires both variants; `degrees.py` line 104 instantiates
`StackFrontier()`). -/
def shortestPathWith (policy : Policy) (ds : Dataset)
    (source target : String) (fuel : Nat) : SearchOutcome :=
  searchLoop ds target fuel (initialConfig policy source)

/-- The function `shortest_path(source, target)` exactly as written:
line 104 hard-codes the stack frontier. -/
def shortest_path (ds : Dataset) (source target : String) (fuel : Nat) :
    SearchOutcome :=
  shortestPathWith Policy.stack ds source target fuel

/-- The loop state after `k` iterations of the `while True` loop, or
`none` if the call returned before reaching iteration `k`.  This is the
observer through which run-long invariants ("at all times", "never")
are stated. -/
def configAfter (ds : Dataset) (target : String) (init : Config) :
    Nat → Option Config
  | 0 => some init
  | k + 1 =>
      match configAfter ds target init k with
      | none => none
      | some c =>
          match stepOnce ds target c with
          | StepResult.done _ => none
          | StepResult.next c' => some c'

/-- The candidate-set lookup of `person_id_for_name` (line 184):
`names.get(name.lower(), set())`.  Lookup is through the lower-cased
name. -/
def candidatesFor (ds : Dataset) (name : String) : List String :=
  (alookup ds.names (lowerName name)).getD []

/-- The function `person_id_for_name(name)` (lines 179-202).  The
ambiguous branch reads a chosen id from standard input; we pass that
input as the extra argument `chosen`.  Zero candidates give `None`; a
unique candidate is returned; with several candidates the chosen id is
returned only if it is itself a candidate. -/
def person_id_for_name (ds : Dataset) (name : String) (chosen : String) :
    Option String :=
  let person_ids := candidatesFor ds name
  match person_ids with
  | [] => none
  | [pid] => some pid
  | _ => if chosen ∈ person_ids then some chosen else none

/-! ### Concrete fixtures

Small datasets built through `load_data`, used to evaluate the embedded
program at concrete inputs. -/

/-- People rows for a two-person dataset: Alice and Bob. -/
def pairPeople : List (String × String × String) :=
  [("p1", "Alice", "1970"), ("p2", "Bob", "1971")]

/-- Two people and no movies: disconnected components. -/
def dsPair : Dataset := load_data pairPeople [] []

/-- Movie rows for the one-movie dataset. -/
def edgeMovies : List (String × String × String) :=
  [("m1", "Movie One", "1999")]

/-- Star rows for the one-movie dataset: Alice and Bob co-star in m1. -/
def edgeStars : List (String × String) :=
  [("p1", "m1"), ("p2", "m1")]

/-- Alice and Bob co-star in one movie: graph distance 1. -/
def dsEdge : Dataset := load_data pairPeople edgeMovies edgeStars

/-- People rows for the three-person chain fixture of the spec. -/
def chainPeople : List (String × String × String) :=
  [("p1", "Alice", "1970"), ("p2", "Bob", "1971"), ("p3", "Carol", "1972")]

/-- Movie rows for the chain fixture: M1 stars A and B, M2 stars B and C. -/
def chainMovies : List (String × String × String) :=
  [("m1", "Movie One", "1999"), ("m2", "Movie Two", "2001")]

/-- Star rows for the chain fixture. -/
def chainStars : List (String × String) :=
  [("p1", "m1"), ("p2", "m1"), ("p2", "m2"), ("p3", "m2")]

/-- The spec's example fixture (section 8): three people, two movies,
A-M1-B-M2-C; graph distance from A to C is 2. -/
def dsChain : Dataset := load_data chainPeople chainMovies chainStars

/-- One person and a stars record whose movie id m9 is absent from the
movies table: the dirty-data case of spec section 7. -/
def dsDangling : Dataset := load_data [("p1", "Alice", "1970")] [] [("p1", "m9")]

/-! ### Lemmas about the set and dictionary helpers -/

theorem mem_insertIfAbsent_self {α : Type} [DecidableEq α] (x : α) (l : List α) :
    x ∈ insertIfAbsent x l := by
  unfold insertIfAbsent
  split
  · assumption
  · exact List.mem_append.2 (Or.inr (List.mem_singleton.2 rfl))

theorem mem_insertIfAbsent_of_mem {α : Type} [DecidableEq α] {a x : α} {l : List α}
    (h : a ∈ l) : a ∈ insertIfAbsent x l := by
  unfold insertIfAbsent
  split
  · exact h
  · exact List.mem_append.2 (Or.inl h)

theorem eq_or_mem_of_mem_insertIfAbsent {α : Type} [DecidableEq α] {a x : α}
    {l : List α} (h : a ∈ insertIfAbsent x l) : a = x ∨ a ∈ l := by
  unfold insertIfAbsent at h
  split at h
  · exact Or.inr h
  · rcases List.mem_append.1 h with h1 | h1
    · exact Or.inr h1
    · exact Or.inl (List.mem_singleton.1 h1)

theorem alookup_ainsert_self {α : Type} (l : List (String × α)) (k : String) (v : α) :
    alookup (ainsert l k v) k = some v := by
  induction l with
  | nil => simp [ainsert, alookup]
  | cons p rest ih =>
      obtain ⟨k', v'⟩ := p
      by_cases h : k' = k
      · subst h
        simp [ainsert, alookup]
      · simp [ainsert, alookup, h, ih]

theorem alookup_ainsert_ne {α : Type} {q k : String} (l : List (String × α)) (v : α)
    (h : q ≠ k) : alookup (ainsert l k v) q = alookup l q := by
  induction l with
  | nil => simp [ainsert, alookup, Ne.symm h]
  | cons p rest ih =>
      obtain ⟨k', v'⟩ := p
      by_cases hk : k' = k
      · subst hk
        simp [ainsert, alookup, Ne.symm h]
      · by_cases hq : k' = q
        · subst hq
          simp [ainsert, alookup, hk]
        · simp [ainsert, alookup, hk, hq, ih]

theorem isSome_alookup_ainsert {α : Type} {l : List (String × α)} {q : String}
    (k : String) (v : α) (h : (alookup l q).isSome = true) :
    (alookup (ainsert l k v) q).isSome = true := by
  by_cases hqk : q = k
  · subst hqk
    simp [alookup_ainsert_self]
  · rwa [alookup_ainsert_ne l v hqk]

/-! ### Lemmas about the frontier -/

theorem contains_state_eq_false_iff (f : Frontier) (s : String) :
    f.contains_state s = false ↔ ∀ n ∈ f.nodes, n.state ≠ s := by
  unfold Frontier.contains_state
  constructor
  · intro h n hn
    intro hstate
    have : f.nodes.any (fun n => n.state == s) = true :=
      List.any_eq_true.2 ⟨n, hn, by simp [hstate]⟩
    rw [h] at this
    cases this
  · intro h
    by_contra hb
    have : f.nodes.any (fun n => n.state == s) = true := by
      cases hany : f.nodes.any (fun n => n.state == s) with
      | true => rfl
      | false => exact absurd hany hb
    obtain ⟨n, hn, hs⟩ := List.any_eq_true.1 this
    exact h n hn (by simpa using hs)

theorem Frontier.remove_eq {f : Frontier} {n : Node} {f' : Frontier}
    (h : f.remove = some (n, f')) :
    f.nodes = n :: f'.nodes ∨ f.nodes = f'.nodes ++ [n] := by
  obtain ⟨pol, nodes⟩ := f
  cases nodes with
  | nil => simp [Frontier.remove] at h
  | cons n0 rest =>
      cases pol with
      | queue =>
          simp only [Frontier.remove] at h
          injection h with h
          injection h with h1 h2
          subst h1
          rw [← h2]
          exact Or.inl rfl
      | stack =>
          simp only [Frontier.remove] at h
          injection h with h
          injection h with h1 h2
          rw [← h2]
          refine Or.inr ?_
          rw [← h1]
          exact (List.dropLast_append_getLast (List.cons_ne_nil n0 rest)).symm

theorem Frontier.remove_singleton (pol : Policy) (n : Node) :
    (Frontier.mk pol [n]).remove = some (n, Frontier.mk pol []) := by
  cases pol <;> simp [Frontier.remove]

/-! ### Lemmas about the neighbor loop -/

theorem exploreNeighbors_inr_mem {t : String} {node : Node} :
    ∀ (nbrs : List (String × String)) (f : Frontier) (ex : List String)
      {f' : Frontier},
      exploreNeighbors t node nbrs f ex = Sum.inr f' →
      ∀ n ∈ f'.nodes, n ∈ f.nodes ∨
        (n.state ≠ t ∧ n.state ∉ ex ∧ ∃ m, n = Node.child n.state m node) := by
  intro nbrs
  induction nbrs with
  | nil =>
      intro f ex f' h n hn
      simp only [exploreNeighbors] at h
      injection h with h
      subst h
      exact Or.inl hn
  | cons pair rest ih =>
      intro f ex f' h n hn
      obtain ⟨mid, pid⟩ := pair
      by_cases hg : f.contains_state pid = false ∧ pid ∉ ex
      · by_cases hpt : pid = t
        · subst hpt
          simp [exploreNeighbors, checkForTargetPerson, hg.1, hg.2] at h
        · simp only [exploreNeighbors, checkForTargetPerson, if_pos hg, if_neg hpt] at h
          rcases ih _ _ h n hn with hmem | hnew
          · have hmem2 : n ∈ f.nodes ∨ n = Node.child pid mid node := by
              simpa [Frontier.add] using hmem
            rcases hmem2 with h1 | h1
            · exact Or.inl h1
            · subst h1
              exact Or.inr ⟨hpt, hg.2, ⟨mid, rfl⟩⟩
          · exact Or.inr hnew
      · simp only [exploreNeighbors, if_neg hg] at h
        exact ih _ _ h n hn

theorem exploreNeighbors_inr_nodup {t : String} {node : Node} :
    ∀ (nbrs : List (String × String)) (f : Frontier) (ex : List String)
      {f' : Frontier},
      (f.nodes.map Node.state).Nodup →
      exploreNeighbors t node nbrs f ex = Sum.inr f' →
      (f'.nodes.map Node.state).Nodup := by
  intro nbrs
  induction nbrs with
  | nil =>
      intro f ex f' hnd h
      simp only [exploreNeighbors] at h
      injection h with h
      subst h
      exact hnd
  | cons pair rest ih =>
      intro f ex f' hnd h
      obtain ⟨mid, pid⟩ := pair
      by_cases hg : f.contains_state pid = false ∧ pid ∉ ex
      · by_cases hpt : pid = t
        · subst hpt
          simp [exploreNeighbors, checkForTargetPerson, hg.1, hg.2] at h
        · simp only [exploreNeighbors, checkForTargetPerson, if_pos hg, if_neg hpt] at h
          refine ih _ _ ?_ h
          simp only [Frontier.add, List.map_append, List.map_cons, List.map_nil,
            Node.state]
          rw [List.nodup_append]
          refine ⟨hnd, List.nodup_singleton _, ?_⟩
          intro a ha hb
          have hapid : a = pid := by simpa using hb
          subst hapid
          obtain ⟨n, hn, hs⟩ := List.mem_map.1 ha
          exact (contains_state_eq_false_iff f a).1 hg.1 n hn hs
      · simp only [exploreNeighbors, if_neg hg] at h
        exact ih _ _ hnd h

theorem exploreNeighbors_inl_not_explored {t : String} {node : Node} :
    ∀ (nbrs : List (String × String)) (f : Frontier) (ex : List String)
      {sol : List String × List String},
      exploreNeighbors t node nbrs f ex = Sum.inl sol → t ∉ ex := by
  intro nbrs
  induction nbrs with
  | nil =>
      intro f ex sol h
      simp [exploreNeighbors] at h
  | cons pair rest ih =>
      intro f ex sol h
      obtain ⟨mid, pid⟩ := pair
      by_cases hg : f.contains_state pid = false ∧ pid ∉ ex
      · by_cases hpt : pid = t
        · subst hpt
          exact hg.2
        · simp only [exploreNeighbors, checkForTargetPerson, if_pos hg, if_neg hpt] at h
          exact ih _ _ h
      · simp only [exploreNeighbors, if_neg hg] at h
        exact ih _ _ h

theorem exploreNeighbors_finds {t m : String} {node : Node} :
    ∀ (nbrs : List (String × String)) (f : Frontier) (ex : List String),
      (m, t) ∈ nbrs → t ∉ ex → (∀ n ∈ f.nodes, n.state ≠ t) →
      ∃ sol, exploreNeighbors t node nbrs f ex = Sum.inl sol := by
  intro nbrs
  induction nbrs with
  | nil =>
      intro f ex hmem
      cases hmem
  | cons pair rest ih =>
      intro f ex hmem hex hf
      obtain ⟨mid, pid⟩ := pair
      by_cases hpt : pid = t
      · subst hpt
        have hg : f.contains_state pid = false ∧ pid ∉ ex :=
          ⟨(contains_state_eq_false_iff f pid).2 hf, hex⟩
        exact ⟨node.solutionPath,
          by simp [exploreNeighbors, checkForTargetPerson, hg.1, hg.2]⟩
      · have hrest : (m, t) ∈ rest := by
          rcases List.mem_cons.1 hmem with h1 | h1
          · exact absurd (congrArg Prod.snd h1).symm hpt
          · exact h1
        by_cases hg : f.contains_state pid = false ∧ pid ∉ ex
        · have hf' : ∀ n ∈ (f.add (Node.child pid mid node)).nodes, n.state ≠ t := by
            intro n hn
            have hn2 : n ∈ f.nodes ∨ n = Node.child pid mid node := by
              simpa [Frontier.add] using hn
            rcases hn2 with h1 | h1
            · exact hf n h1
            · subst h1
              exact hpt
          obtain ⟨sol, hsol⟩ := ih (f.add (Node.child pid mid node)) ex hrest hex hf'
          exact ⟨sol,
            by simp only [exploreNeighbors, checkForTargetPerson, if_pos hg,
              if_neg hpt]; exact hsol⟩
        · obtain ⟨sol, hsol⟩ := ih f ex hrest hex hf
          exact ⟨sol, by simp only [exploreNeighbors, if_neg hg]; exact hsol⟩

/-! ### Loop invariants -/

def SearchInv (c : Config) : Prop :=
  (c.frontier.nodes.map Node.state).Nodup ∧
    ∀ n ∈ c.frontier.nodes, n.state ∉ c.explored

theorem remove_preserves_nodup {f : Frontier} {n : Node} {f' : Frontier}
    (h : f.remove = some (n, f')) (hnd : (f.nodes.map Node.state).Nodup) :
    (f'.nodes.map Node.state).Nodup ∧ n.state ∉ f'.nodes.map Node.state ∧
      (∀ m ∈ f'.nodes, m ∈ f.nodes) ∧ n ∈ f.nodes := by
  rcases Frontier.remove_eq h with heq | heq
  · rw [heq] at hnd
    rw [List.map_cons, List.nodup_cons] at hnd
    refine ⟨hnd.2, hnd.1, ?_, ?_⟩
    · intro m hm
      rw [heq]
      exact List.mem_cons_of_mem n hm
    · rw [heq]
      exact List.mem_cons_self n f'.nodes
  · rw [heq] at hnd
    rw [List.map_append, List.nodup_append] at hnd
    refine ⟨hnd.1, ?_, ?_, ?_⟩
    · intro hmem
      exact hnd.2.2 hmem (List.mem_singleton.2 rfl)
    · intro m hm
      rw [heq]
      exact List.mem_append.2 (Or.inl hm)
    · rw [heq]
      exact List.mem_append.2 (Or.inr (List.mem_singleton.2 rfl))

theorem stepOnce_next_inv {ds : Dataset} {t : String} {c c' : Config}
    (hinv : SearchInv c) (h : stepOnce ds t c = StepResult.next c') :
    SearchInv c' ∧ ∀ s ∈ c.explored, s ∈ c'.explored := by
  unfold stepOnce at h
  cases hrem : c.frontier.remove with
  | none =>
      simp only [hrem] at h
      cases h
  | some pr =>
      obtain ⟨node, f'⟩ := pr
      simp only [hrem] at h
      cases hnb : neighbors_for_person ds node.state with
      | none =>
          simp only [hnb] at h
          cases h
      | some nbrs =>
          simp only [hnb] at h
          cases hex : exploreNeighbors t node nbrs f'
              (insertIfAbsent node.state c.explored) with
          | inl sol =>
              simp only [hex] at h
              cases h
          | inr f'' =>
              simp only [hex] at h
              injection h with h
              subst h
              obtain ⟨hnd1, hn1, hsub, hmem⟩ := remove_preserves_nodup hrem hinv.1
              refine ⟨⟨exploreNeighbors_inr_nodup _ _ _ hnd1 hex, ?_⟩, ?_⟩
              · intro n hn
                rcases exploreNeighbors_inr_mem _ _ _ hex n hn with hold | hnew
                · intro hmem2
                  rcases eq_or_mem_of_mem_insertIfAbsent hmem2 with heq | hinex
                  · exact hn1 (heq ▸ List.mem_map.2 ⟨n, hold, rfl⟩)
                  · exact hinv.2 n (hsub n hold) hinex
                · exact hnew.2.1
              · intro s hs
                exact mem_insertIfAbsent_of_mem hs

theorem searchInv_initial (policy : Policy) (src : String) :
    SearchInv (initialConfig policy src) := by
  constructor
  · simp [initialConfig, Frontier.add]
  · intro n hn
    simp [initialConfig, Frontier.add] at hn
    subst hn
    simp [initialConfig]

theorem configAfter_searchInv {ds : Dataset} {t : String} {policy : Policy}
    {src : String} : ∀ {k : Nat} {c : Config},
    configAfter ds t (initialConfig policy src) k = some c → SearchInv c := by
  intro k
  induction k with
  | zero =>
      intro c h
      simp only [configAfter] at h
      injection h with h
      subst h
      exact searchInv_initial policy src
  | succ k ih =>
      intro c h
      rw [configAfter] at h
      cases hk : configAfter ds t (initialConfig policy src) k with
      | none =>
          simp only [hk] at h
          cases h
      | some c0 =>
          simp only [hk] at h
          cases hs : stepOnce ds t c0 with
          | done o =>
              simp only [hs] at h
              cases h
          | next c1 =>
              simp only [hs] at h
              injection h with h
              subst h
              exact (stepOnce_next_inv (ih hk) hs).1

theorem configAfter_succ_step {ds : Dataset} {t : String} {init : Config}
    {k : Nat} {c c' : Config}
    (hk : configAfter ds t init k = some c)
    (hk1 : configAfter ds t init (k + 1) = some c') :
    stepOnce ds t c = StepResult.next c' := by
  rw [configAfter] at hk1
  simp only [hk] at hk1
  cases hs : stepOnce ds t c with
  | done o =>
      simp only [hs] at hk1
      cases hk1
  | next c1 =>
      simp only [hs] at hk1
      injection hk1 with h
      rw [h]

theorem stepOnce_preserves_no_target {ds : Dataset} {t : String} {c c' : Config}
    (hnt : ∀ n ∈ c.frontier.nodes, n.state ≠ t)
    (h : stepOnce ds t c = StepResult.next c') :
    ∀ n ∈ c'.frontier.nodes, n.state ≠ t := by
  unfold stepOnce at h
  cases hrem : c.frontier.remove with
  | none =>
      simp only [hrem] at h
      cases h
  | some pr =>
      obtain ⟨node, f'⟩ := pr
      simp only [hrem] at h
      cases hnb : neighbors_for_person ds node.state with
      | none =>
          simp only [hnb] at h
          cases h
      | some nbrs =>
          simp only [hnb] at h
          cases hex : exploreNeighbors t node nbrs f'
              (insertIfAbsent node.state c.explored) with
          | inl sol =>
              simp only [hex] at h
              cases h
          | inr f'' =>
              simp only [hex] at h
              injection h with h
              subst h
              intro n hn
              rcases exploreNeighbors_inr_mem _ _ _ hex n hn with hold | hnew
              · have hsub : n ∈ c.frontier.nodes := by
                  rcases Frontier.remove_eq hrem with heq | heq
                  · rw [heq]
                    exact List.mem_cons_of_mem node hold
                  · rw [heq]
                    exact List.mem_append.2 (Or.inl hold)
                exact hnt n hsub
              · exact hnew.1

theorem stepOnce_done_found_not_explored {ds : Dataset} {t : String} {c : Config}
    {sol : List String × List String}
    (h : stepOnce ds t c = StepResult.done (SearchOutcome.found sol)) :
    ∃ node f', c.frontier.remove = some (node, f') ∧
      t ∉ insertIfAbsent node.state c.explored := by
  unfold stepOnce at h
  cases hrem : c.frontier.remove with
  | none =>
      simp only [hrem] at h
      cases h
  | some pr =>
      obtain ⟨node, f'⟩ := pr
      simp only [hrem] at h
      cases hnb : neighbors_for_person ds node.state with
      | none =>
          simp only [hnb] at h
          cases h
      | some nbrs =>
          simp only [hnb] at h
          cases hex : exploreNeighbors t node nbrs f'
              (insertIfAbsent node.state c.explored) with
          | inl sol' =>
              exact ⟨node, f', rfl, exploreNeighbors_inl_not_explored _ _ _ hex⟩
          | inr f'' =>
              simp only [hex] at h
              cases h

theorem stepOnce_next_explored {ds : Dataset} {t : String} {c c' : Config}
    (h : stepOnce ds t c = StepResult.next c') :
    ∃ node f', c.frontier.remove = some (node, f') ∧
      c'.explored = insertIfAbsent node.state c.explored := by
  unfold stepOnce at h
  cases hrem : c.frontier.remove with
  | none =>
      simp only [hrem] at h
      cases h
  | some pr =>
      obtain ⟨node, f'⟩ := pr
      simp only [hrem] at h
      cases hnb : neighbors_for_person ds node.state with
      | none =>
          simp only [hnb] at h
          cases h
      | some nbrs =>
          simp only [hnb] at h
          cases hex : exploreNeighbors t node nbrs f'
              (insertIfAbsent node.state c.explored) with
          | inl sol =>
              simp only [hex] at h
              cases h
          | inr f'' =>
              simp only [hex] at h
              injection h with h
              subst h
              exact ⟨node, f', rfl, rfl⟩

theorem searchLoop_self_never_found {ds : Dataset} {t : String} :
    ∀ (fuel : Nat) (c : Config),
      (t ∈ c.explored ∨ ∀ n ∈ c.frontier.nodes, n.state = t) →
      ∀ sol, searchLoop ds t fuel c ≠ SearchOutcome.found sol := by
  intro fuel
  induction fuel with
  | zero =>
      intro c hc sol h
      simp only [searchLoop] at h
      cases h
  | succ fuel ih =>
      intro c hc sol h
      rw [searchLoop] at h
      cases hs : stepOnce ds t c with
      | done o =>
          simp only [hs] at h
          subst h
          obtain ⟨node, f', hrem, hnotin⟩ := stepOnce_done_found_not_explored hs
          rcases hc with hex | hall
          · exact hnotin (mem_insertIfAbsent_of_mem hex)
          · have hnode : node ∈ c.frontier.nodes := by
              rcases Frontier.remove_eq hrem with heq | heq
              · rw [heq]
                exact List.mem_cons_self node f'.nodes
              · rw [heq]
                exact List.mem_append.2 (Or.inr (List.mem_singleton.2 rfl))
            have : node.state = t := hall node hnode
            exact hnotin (this ▸ mem_insertIfAbsent_self node.state c.explored)
      | next c' =>
          simp only [hs] at h
          refine ih c' ?_ sol h
          obtain ⟨node, f', hrem, hexp⟩ := stepOnce_next_explored hs
          rcases hc with hex | hall
          · exact Or.inl (hexp ▸ mem_insertIfAbsent_of_mem hex)
          · have hnode : node ∈ c.frontier.nodes := by
              rcases Frontier.remove_eq hrem with heq | heq
              · rw [heq]
                exact List.mem_cons_self node f'.nodes
              · rw [heq]
                exact List.mem_append.2 (Or.inr (List.mem_singleton.2 rfl))
            have hst : node.state = t := hall node hnode
            exact Or.inl (hexp ▸ hst ▸ mem_insertIfAbsent_self node.state c.explored)

/-! ### Closure invariants established by the loader -/

/-- Every person id in any movie's star set exists in the people table. -/
def StarsClosed (ds : Dataset) : Prop :=
  ∀ mid movie, alookup ds.movies mid = some movie →
    ∀ pid ∈ movie.stars, (alookup ds.people pid).isSome = true

/-- Every movie id in a person's movie set that exists in the movies
table lists that person among its stars. -/
def MoviesClosed (ds : Dataset) : Prop :=
  ∀ pid P, alookup ds.people pid = some P →
    ∀ m ∈ P.movies, ∀ movie, alookup ds.movies m = some movie → pid ∈ movie.stars

theorem loadStar_person_absent {ds : Dataset} {pid mid : String}
    (h : alookup ds.people pid = none) : loadStar ds pid mid = ds := by
  simp only [loadStar, h]

theorem loadStar_movie_absent {ds : Dataset} {pid mid : String} {P : Person}
    (h : alookup ds.people pid = some P) (h2 : alookup ds.movies mid = none) :
    loadStar ds pid mid = Dataset.mk ds.names
      (ainsert ds.people pid (Person.mk P.name P.birth (insertIfAbsent mid P.movies)))
      ds.movies := by
  simp only [loadStar, h, h2]

theorem loadStar_both_present {ds : Dataset} {pid mid : String} {P : Person} {M : Movie}
    (h : alookup ds.people pid = some P) (h2 : alookup ds.movies mid = some M) :
    loadStar ds pid mid = Dataset.mk ds.names
      (ainsert ds.people pid (Person.mk P.name P.birth (insertIfAbsent mid P.movies)))
      (ainsert ds.movies mid (Movie.mk M.title M.year (insertIfAbsent pid M.stars))) := by
  simp only [loadStar, h, h2]

theorem loadStar_starsClosed {ds : Dataset} (pid0 mid0 : String)
    (hs : StarsClosed ds) : StarsClosed (loadStar ds pid0 mid0) := by
  cases hp : alookup ds.people pid0 with
  | none =>
      rw [loadStar_person_absent hp]
      exact hs
  | some P0 =>
      cases hmov : alookup ds.movies mid0 with
      | none =>
          rw [loadStar_movie_absent hp hmov]
          intro mid movie hmovie q hq
          dsimp only at hmovie ⊢
          exact isSome_alookup_ainsert _ _ (hs mid movie hmovie q hq)
      | some M0 =>
          rw [loadStar_both_present hp hmov]
          intro mid movie hmovie q hq
          dsimp only at hmovie ⊢
          by_cases hmid : mid = mid0
          · rw [hmid, alookup_ainsert_self] at hmovie
            injection hmovie with hmovie
            rw [← hmovie] at hq
            dsimp only at hq
            rcases eq_or_mem_of_mem_insertIfAbsent hq with hq1 | hq1
            · rw [hq1]
              exact isSome_alookup_ainsert _ _ (by rw [hp]; rfl)
            · exact isSome_alookup_ainsert _ _ (hs mid0 M0 hmov q hq1)
          · rw [alookup_ainsert_ne _ _ hmid] at hmovie
            exact isSome_alookup_ainsert _ _ (hs mid movie hmovie q hq)

theorem loadStar_moviesClosed {ds : Dataset} (pid0 mid0 : String)
    (hm : MoviesClosed ds) : MoviesClosed (loadStar ds pid0 mid0) := by
  cases hp : alookup ds.people pid0 with
  | none =>
      rw [loadStar_person_absent hp]
      exact hm
  | some P0 =>
      cases hmov : alookup ds.movies mid0 with
      | none =>
          rw [loadStar_movie_absent hp hmov]
          intro q P hP m hmP movie hmovie
          dsimp only at hP hmovie
          by_cases hq : q = pid0
          · rw [hq, alookup_ainsert_self] at hP
            injection hP with hP
            rw [← hP] at hmP
            dsimp only at hmP
            rcases eq_or_mem_of_mem_insertIfAbsent hmP with hm1 | hm1
            · rw [hm1, hmov] at hmovie
              cases hmovie
            · rw [hq]
              exact hm pid0 P0 hp m hm1 movie hmovie
          · rw [alookup_ainsert_ne _ _ hq] at hP
            exact hm q P hP m hmP movie hmovie
      | some M0 =>
          rw [loadStar_both_present hp hmov]
          intro q P hP m hmP movie hmovie
          dsimp only at hP hmovie
          by_cases hmmid : m = mid0
          · rw [hmmid, alookup_ainsert_self] at hmovie
            injection hmovie with hmovie
            rw [← hmovie]
            dsimp only
            by_cases hq : q = pid0
            · rw [hq]
              exact mem_insertIfAbsent_self pid0 M0.stars
            · rw [alookup_ainsert_ne _ _ hq] at hP
              exact mem_insertIfAbsent_of_mem (hm q P hP mid0 (hmmid ▸ hmP) M0 hmov)
          · rw [alookup_ainsert_ne _ _ hmmid] at hmovie
            by_cases hq : q = pid0
            · rw [hq, alookup_ainsert_self] at hP
              injection hP with hP
              rw [← hP] at hmP
              dsimp only at hmP
              rcases eq_or_mem_of_mem_insertIfAbsent hmP with hm1 | hm1
              · exact absurd hm1 hmmid
              · rw [hq]
                exact hm pid0 P0 hp m hm1 movie hmovie
            · rw [alookup_ainsert_ne _ _ hq] at hP
              exact hm q P hP m hmP movie hmovie

/-- After the people phase every person record has an empty movie set. -/
def PeopleEmptyMovies (ds : Dataset) : Prop :=
  ∀ pid P, alookup ds.people pid = some P → P.movies = []

/-- After the movie phase every movie record has an empty star set. -/
def MoviesEmptyStars (ds : Dataset) : Prop :=
  ∀ mid M, alookup ds.movies mid = some M → M.stars = []

theorem loadPerson_people (ds : Dataset) (id name birth : String) :
    (loadPerson ds id name birth).people =
      ainsert ds.people id (Person.mk name birth []) := by
  unfold loadPerson
  dsimp only
  split <;> rfl

theorem loadPerson_movies (ds : Dataset) (id name birth : String) :
    (loadPerson ds id name birth).movies = ds.movies := by
  unfold loadPerson
  dsimp only
  split <;> rfl

theorem peopleFold_empty :
    ∀ (rows : List (String × String × String)) (ds : Dataset),
      PeopleEmptyMovies ds →
      PeopleEmptyMovies
        (rows.foldl (fun ds r => loadPerson ds r.1 r.2.1 r.2.2) ds) := by
  intro rows
  induction rows with
  | nil =>
      intro ds h
      exact h
  | cons r rest ih =>
      intro ds h
      simp only [List.foldl_cons]
      apply ih
      intro pid P hP
      rw [loadPerson_people] at hP
      by_cases hid : pid = r.1
      · rw [hid, alookup_ainsert_self] at hP
        injection hP with hP
        rw [← hP]
      · rw [alookup_ainsert_ne _ _ hid] at hP
        exact h pid P hP

theorem peopleFold_movies :
    ∀ (rows : List (String × String × String)) (ds : Dataset),
      (rows.foldl (fun ds r => loadPerson ds r.1 r.2.1 r.2.2) ds).movies =
        ds.movies := by
  intro rows
  induction rows with
  | nil =>
      intro ds
      rfl
  | cons r rest ih =>
      intro ds
      simp only [List.foldl_cons]
      rw [ih, loadPerson_movies]

theorem movieFold_people :
    ∀ (rows : List (String × String × String)) (ds : Dataset),
      (rows.foldl (fun ds r => loadMovie ds r.1 r.2.1 r.2.2) ds).people =
        ds.people := by
  intro rows
  induction rows with
  | nil =>
      intro ds
      rfl
  | cons r rest ih =>
      intro ds
      simp only [List.foldl_cons]
      rw [ih]
      rfl

theorem movieFold_emptyStars :
    ∀ (rows : List (String × String × String)) (ds : Dataset),
      MoviesEmptyStars ds →
      MoviesEmptyStars
        (rows.foldl (fun ds r => loadMovie ds r.1 r.2.1 r.2.2) ds) := by
  intro rows
  induction rows with
  | nil =>
      intro ds h
      exact h
  | cons r rest ih =>
      intro ds h
      simp only [List.foldl_cons]
      apply ih
      intro mid M hM
      dsimp only [loadMovie] at hM
      by_cases hid : mid = r.1
      · rw [hid, alookup_ainsert_self] at hM
        injection hM with hM
        rw [← hM]
      · rw [alookup_ainsert_ne _ _ hid] at hM
        exact h mid M hM

theorem starFold_closed :
    ∀ (rows : List (String × String)) (ds : Dataset),
      StarsClosed ds → MoviesClosed ds →
      StarsClosed (rows.foldl (fun ds r => loadStar ds r.1 r.2) ds) ∧
        MoviesClosed (rows.foldl (fun ds r => loadStar ds r.1 r.2) ds) := by
  intro rows
  induction rows with
  | nil =>
      intro ds hs hm
      exact ⟨hs, hm⟩
  | cons r rest ih =>
      intro ds hs hm
      simp only [List.foldl_cons]
      exact ih _ (loadStar_starsClosed r.1 r.2 hs) (loadStar_moviesClosed r.1 r.2 hm)

theorem load_data_closed (pR mR : List (String × String × String))
    (sR : List (String × String)) :
    StarsClosed (load_data pR mR sR) ∧ MoviesClosed (load_data pR mR sR) := by
  unfold load_data
  apply starFold_closed
  · intro mid movie hmovie pid hpid
    have hempty : movie.stars = [] := by
      refine movieFold_emptyStars mR _ ?_ mid movie hmovie
      intro mid' M' hM'
      rw [peopleFold_movies] at hM'
      simp [alookup] at hM'
    rw [hempty] at hpid
    cases hpid
  · intro pid P hP m hm movie hmovie
    rw [movieFold_people mR _] at hP
    have hempty : P.movies = [] := by
      refine peopleFold_empty pR (Dataset.mk [] [] []) ?_ pid P hP
      intro pid' P' hP'
      simp [alookup] at hP'
    rw [hempty] at hm
    cases hm

/-! ### Lemmas about neighbor collection -/

theorem foldl_insertIfAbsent_mem_preserve {mid : String} :
    ∀ (stars : List String) (acc : List (String × String)) {a : String × String},
      a ∈ acc → a ∈ stars.foldl (fun a pid => insertIfAbsent (mid, pid) a) acc := by
  intro stars
  induction stars with
  | nil =>
      intro acc a h
      exact h
  | cons st rest ih =>
      intro acc a h
      simp only [List.foldl_cons]
      exact ih _ (mem_insertIfAbsent_of_mem h)

theorem foldl_insertIfAbsent_mem_new {mid s : String} :
    ∀ (stars : List String) (acc : List (String × String)), s ∈ stars →
      (mid, s) ∈ stars.foldl (fun a pid => insertIfAbsent (mid, pid) a) acc := by
  intro stars
  induction stars with
  | nil =>
      intro acc h
      cases h
  | cons st rest ih =>
      intro acc h
      simp only [List.foldl_cons]
      rcases List.mem_cons.1 h with h1 | h1
      · rw [h1]
        exact foldl_insertIfAbsent_mem_preserve rest _ (mem_insertIfAbsent_self _ _)
      · exact ih _ h1

theorem collectNeighbors_sound (ds : Dataset) :
    ∀ (ms : List String) (acc : List (String × String)),
      (∀ m ∈ ms, (alookup ds.movies m).isSome = true) →
      ∃ res, collectNeighbors ds ms acc = some res ∧
        (∀ a ∈ acc, a ∈ res) ∧
        (∀ m ∈ ms, ∀ movie, alookup ds.movies m = some movie →
          ∀ s ∈ movie.stars, (m, s) ∈ res) := by
  intro ms
  induction ms with
  | nil =>
      intro acc _
      exact ⟨acc, rfl, fun a ha => ha, fun m hm => absurd hm (List.not_mem_nil m)⟩
  | cons m0 rest ih =>
      intro acc h
      have hm0 : (alookup ds.movies m0).isSome = true := h m0 (List.mem_cons_self m0 rest)
      cases hmov : alookup ds.movies m0 with
      | none =>
          rw [hmov] at hm0
          cases hm0
      | some M =>
          obtain ⟨res, hres, hacc, hmem⟩ :=
            ih (M.stars.foldl (fun a pid => insertIfAbsent (m0, pid) a) acc)
              (fun m hm => h m (List.mem_cons_of_mem m0 hm))
          refine ⟨res, ?_, ?_, ?_⟩
          · simp only [collectNeighbors, hmov]
            exact hres
          · intro a ha
            exact hacc a (foldl_insertIfAbsent_mem_preserve _ _ ha)
          · intro m hm movie hmovie s hstars
            rcases List.mem_cons.1 hm with h1 | h1
            · rw [h1] at hmovie
              rw [hmov] at hmovie
              injection hmovie with hmovie
              rw [h1]
              rw [← hmovie] at hstars
              exact hacc _ (foldl_insertIfAbsent_mem_new M.stars acc hstars)
            · exact hmem m h1 movie hmovie s hstars

theorem neighbors_contains (ds : Dataset) (pid : String) (P : Person)
    (hP : alookup ds.people pid = some P)
    (hall : ∀ m ∈ P.movies, (alookup ds.movies m).isSome = true) :
    ∃ res, neighbors_for_person ds pid = some res ∧
      (∀ m ∈ P.movies, ∀ movie, alookup ds.movies m = some movie →
        ∀ s ∈ movie.stars, (m, s) ∈ res) := by
  obtain ⟨res, hres, _, hmem⟩ := collectNeighbors_sound ds P.movies [] hall
  refine ⟨res, ?_, hmem⟩
  simp only [neighbors_for_person, hP]
  exact hres

theorem configAfter_no_target {ds : Dataset} {policy : Policy} {src tgt : String}
    (hne : src ≠ tgt) :
    ∀ (k : Nat) (c : Config),
      configAfter ds tgt (initialConfig policy src) k = some c →
      ∀ n ∈ c.frontier.nodes, n.state ≠ tgt := by
  intro k
  induction k with
  | zero =>
      intro c h n hn
      simp only [configAfter] at h
      injection h with h
      subst h
      have : n = Node.root src := by
        simpa [initialConfig, Frontier.add] using hn
      rw [this]
      exact hne
  | succ k ih =>
      intro c h
      rw [configAfter] at h
      cases hk : configAfter ds tgt (initialConfig policy src) k with
      | none =>
          simp only [hk] at h
          cases h
      | some c0 =>
          simp only [hk] at h
          cases hs : stepOnce ds tgt c0 with
          | done o =>
              simp only [hs] at h
              cases h
          | next c1 =>
              simp only [hs] at h
              injection h with h
              subst h
              exact stepOnce_preserves_no_target (ih c0 hk) hs

theorem initialConfig_remove (policy : Policy) (src : String) :
    (initialConfig policy src).frontier.remove =
      some (Node.root src, Frontier.mk policy []) := by
  cases policy <;> rfl

theorem stepOnce_direct_neighbor {ds : Dataset} {policy : Policy} {src tgt : String}
    {nbrs : List (String × String)} {mid : String}
    (hne : src ≠ tgt) (hnb : neighbors_for_person ds src = some nbrs)
    (hmem : (mid, tgt) ∈ nbrs) :
    (stepOnce ds tgt (initialConfig policy src)).isFound = true := by
  have hexn : tgt ∉ insertIfAbsent src ([] : List String) := by
    intro hmm
    rcases eq_or_mem_of_mem_insertIfAbsent hmm with h1 | h1
    · exact hne h1.symm
    · cases h1
  obtain ⟨sol, hsol⟩ := @exploreNeighbors_finds tgt mid (Node.root src) nbrs
      (Frontier.mk policy []) (insertIfAbsent src []) hmem hexn
      (by intro n hn; cases hn)
  have hstep : stepOnce ds tgt (initialConfig policy src) =
      StepResult.done (SearchOutcome.found sol) := by
    unfold stepOnce
    rw [initialConfig_remove]
    dsimp only [Node.state, initialConfig]
    simp only [hnb, hsol]
  rw [hstep]
  rfl

/-! ### Claim theorems -/

/-- C1 (code_bug evidence): the claim says an exhausted frontier makes
`shortest_path` return an ordinary no-path value (None).  On the
two-person dataset with no movies — source and target in disconnected
components — the code instead raises `Exception("No solution")`
(line 115), here the `noSolutionError` outcome, contradicting its own
docstring "If no possible path, returns None" (line 98) and the
`if path is None` check of `main` (line 77). -/
theorem c1_no_path_raises_instead_of_none :
    shortest_path dsPair "p1" "p2" 8 = SearchOutcome.noSolutionError := by
  rfl

/-- C2 (code_bug evidence): the claim says a successful search returns
the ordered `(movie_id, person_id)` pairs ending at the target.  On the
dataset where p1 and p2 co-star in m1, `shortest_path(p1, p2)` returns
`([], [])`: `checkForTargetPerson` is handed the parent node (line 138),
so reconstruction walks from the parent and the final
`(m1, p2)` step is lost, and the result is a pair of lists
`(movies, people)` (line 169) rather than a list of pairs; the last
collected person is never the target. -/
theorem c2_reconstruction_drops_target_pair :
    shortest_path dsEdge "p1" "p2" 8 = SearchOutcome.found ([], []) := by
  rfl

/-- C3 (code_bug evidence): the claim says the search with a
first-in-first-out frontier returns a path whose length equals the true
graph distance.  On the dataset where p1 and p2 co-star in m1 the true
distance is 1, yet the queue-policy search returns `([], [])` — zero
edges — because path reconstruction starts at the parent of the found
target (lines 138, 159) and so always loses the final edge. -/
theorem c3_fifo_path_length_not_distance :
    shortestPathWith Policy.queue dsEdge "p1" "p2" 8 =
      SearchOutcome.found ([], []) := by
  rfl

/-- C4 (code_bug evidence): on the spec's fixture {A,B,C} with M1
starring A,B and M2 starring B,C, the claim expects
`shortest_path(A, C) = [(M1,B), (M2,C)]`.  The queue-policy run of the
code returns `(["m1"], ["p2"])` — a pair of parallel lists reconstructed
from the parent node B, missing the final `(M2, C)` step. -/
theorem c4_fixture_returns_truncated_pair_of_lists :
    shortestPathWith Policy.queue dsChain "p1" "p3" 8 =
      SearchOutcome.found (["m1"], ["p2"]) := by
  rfl

/-- C5 (counterexample): the claim says a node whose state equals the
target is never inserted into the frontier during any run.  In the run
of `shortest_path(p1, p1)` — source equal to target — the initial
`frontier.add(startingNode)` (line 105) inserts the root node whose
state is the target: at loop iteration 0 the frontier already contains
a target-state node. -/
theorem c5_counterexample_self_target_in_frontier :
    configAfter dsEdge "p1" (initialConfig Policy.stack "p1") 0 =
      some (initialConfig Policy.stack "p1") ∧
    (initialConfig Policy.stack "p1").frontier.contains_state "p1" = true := by
  exact ⟨rfl, rfl⟩

/-- C5 (amended): provided source and target differ, a node whose state
equals the target is never in the frontier at any loop iteration — the
early goal check returns before such a node is constructed into the
frontier — and when the target is a direct neighbor of the source the
very first iteration returns the reconstructed path, so the engine
returns without the frontier ever growing beyond depth 1. -/
theorem c5_amended_target_never_in_frontier (ds : Dataset) (policy : Policy)
    (src tgt : String) (hne : src ≠ tgt) :
    (∀ k c, configAfter ds tgt (initialConfig policy src) k = some c →
      c.frontier.contains_state tgt = false) ∧
    (∀ nbrs mid, neighbors_for_person ds src = some nbrs → (mid, tgt) ∈ nbrs →
      (stepOnce ds tgt (initialConfig policy src)).isFound = true) := by
  constructor
  · intro k c hk
    rw [contains_state_eq_false_iff]
    exact configAfter_no_target hne k c hk
  · intro nbrs mid hnb hmem
    exact stepOnce_direct_neighbor hne hnb hmem

/-- C5 (witness): on the co-star dataset with p1 ≠ p2: the target p2 is
never a frontier state, and since p2 is a direct neighbor of p1 the
first loop iteration already returns the solution. -/
theorem c5_amended_witness :
    (initialConfig Policy.stack "p1").frontier.contains_state "p2" = false ∧
    (stepOnce dsEdge "p2" (initialConfig Policy.stack "p1")).isFound = true := by
  constructor
  · exact (c5_amended_target_never_in_frontier dsEdge Policy.stack "p1" "p2"
      (by decide)).1 0 (initialConfig Policy.stack "p1") rfl
  · exact (c5_amended_target_never_in_frontier dsEdge Policy.stack "p1" "p2"
      (by decide)).2 [("m1", "p1"), ("m1", "p2")] "m1" (by decide) (by decide)

/-- C6: throughout every run, the explored set and the frontier are
disjoint by state — a state is added to the explored set in the
iteration that dequeues its node, and the explored set only grows from
one iteration to the next, so an explored state never reappears in the
frontier. -/
theorem c6_explored_frontier_disjoint (ds : Dataset) (policy : Policy)
    (src tgt : String) (k : Nat) (c : Config)
    (hk : configAfter ds tgt (initialConfig policy src) k = some c) :
    (∀ s ∈ c.explored, c.frontier.contains_state s = false) ∧
    ∀ c', configAfter ds tgt (initialConfig policy src) (k + 1) = some c' →
      ∀ s ∈ c.explored, s ∈ c'.explored := by
  constructor
  · intro s hs
    have hinv := configAfter_searchInv hk
    rw [contains_state_eq_false_iff]
    intro n hn hstate
    exact hinv.2 n hn (hstate ▸ hs)
  · intro c' hk1 s hs
    exact (stepOnce_next_inv (configAfter_searchInv hk)
      (configAfter_succ_step hk hk1)).2 s hs

/-- The loop state after one iteration of the queue-policy search for
p3 from p1 on the chain fixture, used as a concrete input for the C6
invariant. -/
def cfgAfterOne : Config :=
  Config.mk (Frontier.mk Policy.queue [Node.child "p2" "m1" (Node.root "p1")]) ["p1"]

/-- C6 (witness): after one iteration of the chain-fixture run the
explored state p1 is not a frontier state. -/
theorem c6_witness : cfgAfterOne.frontier.contains_state "p1" = false :=
  (c6_explored_frontier_disjoint dsChain Policy.queue "p1" "p3" 1 cfgAfterOne
    (by decide)).1 "p1" (by decide)

/-- C7 (counterexample): the claim says a stars record whose movie id is
absent is skipped without modifying either table.  Loading the single
record `(p1, m9)` with no movies table entry for m9 nevertheless changes
the dataset — `people[p1]["movies"].add("m9")` has already run when the
movie lookup raises `KeyError` (lines 52-55) — so the people table ends
up different from the run without that record. -/
theorem c7_counterexample_people_table_modified :
    load_data [("p1", "Alice", "1970")] [] [("p1", "m9")] ≠
      load_data [("p1", "Alice", "1970")] [] [] := by
  decide

/-- C7 (amended): a stars record whose person id is absent is skipped
without modifying the dataset at all; a record whose person exists but
whose movie id is absent leaves the movies table unchanged (though the
person's movie set has already been extended); loading never fails; and
after loading, every person id in any movie's star set exists in the
people table. -/
theorem c7_amended_skip_semantics (ds : Dataset) (pid mid : String)
    (pR mR : List (String × String × String)) (sR : List (String × String)) :
    (alookup ds.people pid = none → loadStar ds pid mid = ds) ∧
    (alookup ds.movies mid = none → (loadStar ds pid mid).movies = ds.movies) ∧
    (∀ mv movie p, alookup (load_data pR mR sR).movies mv = some movie →
      p ∈ movie.stars → (alookup (load_data pR mR sR).people p).isSome = true) := by
  refine ⟨fun h => loadStar_person_absent h, ?_, ?_⟩
  · intro h2
    cases hp : alookup ds.people pid with
    | none => rw [loadStar_person_absent hp]
    | some P => rw [loadStar_movie_absent hp h2]
  · intro mv movie p hmovie hp
    exact (load_data_closed pR mR sR).1 mv movie hmovie p hp

/-- C7 (witness): concrete instances of the three amended clauses on the
fixtures. -/
theorem c7_witness :
    loadStar dsPair "nobody" "m1" = dsPair ∧
    (loadStar dsPair "p1" "m9").movies = dsPair.movies ∧
    (alookup (load_data chainPeople chainMovies chainStars).people "p1").isSome
      = true := by
  refine ⟨?_, ?_, ?_⟩
  · exact (c7_amended_skip_semantics dsPair "nobody" "m1" [] [] []).1 (by decide)
  · exact (c7_amended_skip_semantics dsPair "p1" "m9" [] [] []).2.1 (by decide)
  · exact (c7_amended_skip_semantics dsPair "x" "y"
      chainPeople chainMovies chainStars).2.2
      "m1" (Movie.mk "Movie One" "1999" ["p1", "p2"]) "p1" (by decide) (by decide)

/-- A one-step cycle through `p` in the co-star graph: some movie in the
table stars `p` together with another person, so a walk can leave `p`
and route back. -/
def costarCycle (ds : Dataset) (p : String) : Prop :=
  ∃ e ∈ ds.movies, p ∈ e.2.stars ∧ ∃ q ∈ e.2.stars, q ≠ p

/-- C8: `shortest_path(p, p)` is not special-cased to a trivial
zero-length path — the self search runs the ordinary loop and can
succeed only if a cycle in the co-star graph routes back to p.  (In
fact the success case never arises: p is marked explored at the first
dequeue, and the explored-set guard of line 135 filters every later
occurrence of p before the goal check can run, so the contrapositive
clause holds for every dataset.) -/
theorem c8_self_search_not_special_cased (ds : Dataset) (policy : Policy)
    (p : String) (fuel : Nat) :
    shortestPathWith policy ds p p fuel ≠ SearchOutcome.found ([], []) ∧
    (¬ costarCycle ds p →
      ∀ sol, shortestPathWith policy ds p p fuel ≠ SearchOutcome.found sol) := by
  have hnever : ∀ sol,
      searchLoop ds p fuel (initialConfig policy p) ≠ SearchOutcome.found sol := by
    intro sol
    apply searchLoop_self_never_found
    refine Or.inr ?_
    intro n hn
    have : n = Node.root p := by
      simpa [initialConfig, Frontier.add] using hn
    rw [this]
    rfl
  exact ⟨hnever ([], []), fun _ sol => hnever sol⟩

/-- C8 (witness): on the two-person dataset the self search for p1
returns neither the trivial empty path nor any other path (there is no
cycle through p1: the movie table is empty). -/
theorem c8_witness :
    shortestPathWith Policy.stack dsPair "p1" "p1" 8 ≠
      SearchOutcome.found ([], []) ∧
    shortestPathWith Policy.stack dsPair "p1" "p1" 8 ≠
      SearchOutcome.found (["m1"], ["p1"]) := by
  constructor
  · exact (c8_self_search_not_special_cased dsPair Policy.stack "p1" 8).1
  · exact (c8_self_search_not_special_cased dsPair Policy.stack "p1" 8).2
      (by unfold costarCycle; decide) (["m1"], ["p1"])

/-- C9: name resolution is case-insensitive — the candidate set is read
through the lower-cased name (line 184), so any two spellings with the
same lower-casing look up the same candidate set, and with zero matches
`person_id_for_name` returns None. -/
theorem c9_resolution_case_insensitive (ds : Dataset) (n1 n2 chosen : String)
    (h : lowerName n1 = lowerName n2) :
    candidatesFor ds n1 = candidatesFor ds n2 ∧
    (candidatesFor ds n1 = [] → person_id_for_name ds n1 chosen = none) := by
  constructor
  · unfold candidatesFor
    rw [h]
  · intro hempty
    simp only [person_id_for_name, hempty]

/-- C9 (witness): "ALICE" and "alice" resolve to the same candidates on
the chain fixture, and an unknown name resolves to None. -/
theorem c9_witness :
    candidatesFor dsChain "ALICE" = candidatesFor dsChain "alice" ∧
    person_id_for_name dsChain "Nobody" "x" = none := by
  constructor
  · exact (c9_resolution_case_insensitive dsChain "ALICE" "alice" "x"
      (by decide)).1
  · exact (c9_resolution_case_insensitive dsChain "Nobody" "Nobody" "x" rfl).2
      (by decide)

/-- C10 (counterexample): the claim says `neighbors_for_person(p)`
contains the self pair `(m, p)` for every movie m in p's movie set.
After loading the dirty record `(p1, m9)` the person p1 has m9 in their
movie set, but `neighbors_for_person(p1)` raises `KeyError` on the
absent movie (line 213, modelled as `none`), so it contains no pair at
all. -/
theorem c10_counterexample_dangling_movie :
    alookup dsDangling.people "p1" = some (Person.mk "Alice" "1970" ["m9"]) ∧
    neighbors_for_person dsDangling "p1" = none := by
  exact ⟨rfl, rfl⟩

/-- C10 (amended): for a loaded dataset and a person p whose listed
movies all exist in the movies table, `neighbors_for_person(p)` succeeds
and contains the self pair `(m, p)` for every movie m of p; and in the
search loop a self pair — frontier check false, state already explored —
is skipped by the explored-set conjunct of the guard (line 135). -/
theorem c10_amended_self_pairs (pR mR : List (String × String × String))
    (sR : List (String × String)) (pid : String) (P : Person)
    (tgt : String) (node : Node) (f : Frontier) (ex : List String)
    (mid0 : String) (rest : List (String × String)) :
    (alookup (load_data pR mR sR).people pid = some P →
      (∀ m ∈ P.movies, (alookup (load_data pR mR sR).movies m).isSome = true) →
      (neighbors_for_person (load_data pR mR sR) pid).isSome = true ∧
      ∀ m ∈ P.movies,
        (m, pid) ∈ (neighbors_for_person (load_data pR mR sR) pid).getD []) ∧
    (f.contains_state node.state = false → node.state ∈ ex →
      exploreNeighbors tgt node ((mid0, node.state) :: rest) f ex =
        exploreNeighbors tgt node rest f ex) := by
  constructor
  · intro hP hall
    obtain ⟨res, hres, hmem⟩ := neighbors_contains _ pid P hP hall
    rw [hres]
    refine ⟨rfl, ?_⟩
    intro m hm
    have hsomeM := hall m hm
    cases hmov : alookup (load_data pR mR sR).movies m with
    | none =>
        rw [hmov] at hsomeM
        cases hsomeM
    | some M =>
        have hstars : pid ∈ M.stars :=
          (load_data_closed pR mR sR).2 pid P hP m hm M hmov
        exact hmem m hm M hmov pid hstars
  · intro hcs hex
    have hhead : exploreNeighbors tgt node ((mid0, node.state) :: rest) f ex =
        if f.contains_state node.state = false ∧ node.state ∉ ex then
          (match checkForTargetPerson node.state tgt node with
            | some solution => Sum.inl solution
            | none => exploreNeighbors tgt node rest
                (f.add (Node.child node.state mid0 node)) ex)
        else exploreNeighbors tgt node rest f ex := rfl
    rw [hhead]
    exact if_neg (fun hand => hand.2 hex)

/-- C10 (witness): on the chain fixture the self pair `(m1, p1)` is in
p1's neighbor set, and a concrete self pair is skipped by the
explored-set check. -/
theorem c10_witness :
    ("m1", "p1") ∈ (neighbors_for_person dsChain "p1").getD [] ∧
    exploreNeighbors "p3" (Node.root "px") [("m7", "px")]
        (Frontier.mk Policy.stack []) ["px"] =
      exploreNeighbors "p3" (Node.root "px") []
        (Frontier.mk Policy.stack []) ["px"] := by
  constructor
  · exact ((c10_amended_self_pairs chainPeople chainMovies chainStars "p1"
      (Person.mk "Alice" "1970" ["m1"]) "x" (Node.root "x")
      (Frontier.mk Policy.stack []) [] "m" []).1
      (by decide) (by decide)).2 "m1" (by decide)
  · exact (c10_amended_self_pairs [] [] [] "x" (Person.mk "x" "x" [])
      "p3" (Node.root "px") (Frontier.mk Policy.stack []) ["px"] "m7" []).2
      rfl (by decide)
